import Mathlib

set_option maxHeartbeats 1000000

/-! Shallow embedding of the browser-shell state model (the `BrowserState`
object of the source): the tab store, the address-bar URL normalization,
the conversation store and the widget-enablement list.  Every mutating
method becomes a pure function returning the new state together with the
list of effects it performs (persistence writes and event emissions), in
execution order. -/

/-- Models the JS expression `x || d` for an optional string field: the
empty string is falsy, an absent field is falsy. -/
def jsOrString (o : Option String) (d : String) : String :=
  match o with
  | some s => if s = "" then d else s
  | none => d

/-- Models the JS expression `x || d` for an optional boolean field:
`false` is falsy. -/
def jsOrBool (o : Option Bool) (d : Bool) : Bool :=
  match o with
  | some b => if b then b else d
  | none => d

/-- Models the JS expression `x || d` for an optional numeric field:
`0` is falsy. -/
def jsOrNat (o : Option Nat) (d : Nat) : Nat :=
  match o with
  | some n => if n = 0 then d else n
  | none => d

/-- Models the JS expression `x || null` for an optional string field. -/
def jsOrNull (o : Option String) : Option String :=
  match o with
  | some s => if s = "" then none else some s
  | none => none

/-- Models JS `s.slice(0, n)` (truncation to the first `n` units). -/
def jsSlice (s : String) (n : Nat) : String := String.mk (s.data.take n)

/-- Models JS `String.prototype.trim`: strip leading and trailing
whitespace characters. -/
def jsTrim (s : String) : String :=
  String.mk (((s.data.dropWhile Char.isWhitespace).reverse.dropWhile Char.isWhitespace).reverse)

/-- Models JS `String.prototype.includes` specialized to a one-character
needle, as used by `normalizeUrl`. -/
def includesChar (s : String) (c : Char) : Bool := s.data.contains c

/-- Tests that the first character list is an initial segment of the second. -/
def leadsList : List Char → List Char → Bool
  | [], _ => true
  | _ :: _, [] => false
  | a :: as, b :: bs => a == b && leadsList as bs

/-- Models the regex test `/^https?:\/\//i` of `normalizeUrl`. -/
def matchesHttpProtocol (s : String) : Bool :=
  let l := s.data.map Char.toLower
  leadsList ['h', 't', 't', 'p', ':', '/', '/'] l ||
    leadsList ['h', 't', 't', 'p', 's', ':', '/', '/'] l

/-- Models JS `Array.prototype.findIndex`; `none` plays the role of `-1`. -/
def findIndex {α : Type} (p : α → Bool) : List α → Option Nat
  | [] => none
  | a :: as => if p a then some 0 else (findIndex p as).map (· + 1)

/-- Models JS `arr.splice(i, 0, x)` for `0 ≤ i ≤ arr.length`. -/
def insertAt {α : Type} (l : List α) (i : Nat) (x : α) : List α :=
  l.take i ++ x :: l.drop i

/-- One tab of the tab store.  The `history`/`historyIndex` fields of the
source are created as `[]`/`-1` and never read or written afterwards, so
they are omitted. -/
structure Tab where
  id : String
  title : String
  url : String
  favicon : Option String
  isPinned : Bool
  isLoading : Bool
  canGoBack : Bool
  canGoForward : Bool
  deriving DecidableEq, Repr

/-- The options object accepted by `createTab`/`addTab` (absent key =
`none`). -/
structure TabOptions where
  id : Option String := none
  title : Option String := none
  url : Option String := none
  favicon : Option String := none
  isPinned : Option Bool := none
  deriving DecidableEq, Repr

/-- The partial-attribute object accepted by `updateTab`.  JS
distinguishes an absent key from a key with value `null`, hence the
doubly optional `favicon`.  Keys never passed by any caller of interest
(`history`, `historyIndex`, `isPinned`, `isLoading`) are omitted; `id`
is kept because `Object.assign` copies it when present. -/
structure TabUpdates where
  id : Option String := none
  title : Option String := none
  url : Option String := none
  favicon : Option (Option String) := none
  canGoBack : Option Bool := none
  canGoForward : Option Bool := none
  deriving DecidableEq, Repr

/-- Models `Object.assign(tab, updates)` restricted to the modelled keys. -/
def applyUpdates (t : Tab) (u : TabUpdates) : Tab :=
  { t with
    id := u.id.getD t.id
    title := u.title.getD t.title
    url := u.url.getD t.url
    favicon := match u.favicon with | some f => f | none => t.favicon
    canGoBack := u.canGoBack.getD t.canGoBack
    canGoForward := u.canGoForward.getD t.canGoForward }

/-- The `lastPinnedIndex` reduce of `togglePinTab`:
`tabs.reduce((acc, t, i) => t.isPinned ? i : acc, -1)`. -/
def lastPinnedIndexAux (start : Nat) (acc : Int) : List Tab → Int
  | [] => acc
  | t :: ts => lastPinnedIndexAux (start + 1) (if t.isPinned then (start : Int) else acc) ts

/-- Index of the last pinned tab, `-1` when none is pinned. -/
def lastPinnedIndex (l : List Tab) : Int := lastPinnedIndexAux 0 (-1) l

/-- One message of a conversation.  The transient streaming flags are not
needed by the claims and are omitted. -/
structure Message where
  id : String
  role : String
  content : String
  timestamp : Nat
  deriving DecidableEq, Repr

/-- The options object accepted by `createMessage`. -/
structure MessageOptions where
  id : Option String := none
  role : Option String := none
  content : Option String := none
  timestamp : Option Nat := none
  deriving DecidableEq, Repr

/-- One AI conversation.  (`createConversation` ignores any `pageUrl`
option, so no such field exists on the object.) -/
structure Conversation where
  id : String
  title : String
  createdAt : Nat
  lastUpdated : Nat
  messages : List Message
  originatingContext : String
  deriving DecidableEq, Repr

/-- The options object accepted by `createConversation`/`addConversation`. -/
structure ConversationOptions where
  id : Option String := none
  title : Option String := none
  createdAt : Option Nat := none
  lastUpdated : Option Nat := none
  messages : Option (List Message) := none
  originatingContext : Option String := none
  deriving DecidableEq, Repr

/-- The address-bar buffer. -/
structure AddressBarState where
  value : String
  isFocused : Bool
  isEditing : Bool
  deriving DecidableEq, Repr

/-- Mirrored navigation flags of the active tab. -/
structure NavigationState where
  canGoBack : Bool
  canGoForward : Bool
  deriving DecidableEq, Repr

/-- Process-wide loading indicator. -/
structure UIState where
  isLoading : Bool
  loadingTabId : Option String
  deriving DecidableEq, Repr

/-- One entry of the persisted tabs snapshot (`saveTabs`). -/
structure TabSnapshotEntry where
  id : String
  title : String
  url : String
  favicon : Option String
  deriving DecidableEq, Repr

/-- The persisted tabs blob (`localStorage` key `browser_tabs`). -/
structure TabSnapshot where
  activeTabId : Option String
  tabs : List TabSnapshotEntry
  deriving DecidableEq, Repr

/-- Events emitted through the event bus, with minimal payloads. -/
inductive Ev where
  | tabAdded (id : String)
  | tabRemoved (id : String)
  | tabUpdated (id : String)
  | activeTabChanged (id : String)
  | stateChanged
  | loadingStateChanged (tabId : String) (isLoading : Bool)
  | ntpUpdated
  | messageAdded (conversationId : String)
  | conversationUpdated (conversationId : String)
  | conversationAdded (conversationId : String)
  | activeConversationChanged (conversationId : String)
  deriving DecidableEq, Repr

/-- Observable effects of one operation, in execution order: persistence
writes and event emissions. -/
inductive Eff where
  | saveTabs
  | saveNtp
  | saveConversations
  | emit (e : Ev)
  deriving DecidableEq, Repr

/-- The whole `BrowserState` singleton; the widget registry is modelled
by the list of registered ids (render callbacks are external DOM code). -/
structure BState where
  tabs : List Tab
  activeTabId : Option String
  addressBar : AddressBarState
  navigation : NavigationState
  ui : UIState
  conversations : List Conversation
  activeConversationId : Option String
  enabledWidgets : List String
  registeredWidgets : List String
  storedTabs : Option TabSnapshot
  deriving DecidableEq, Repr

/-- The state right after `init()` on a fresh profile: empty tab
collection, default widgets registered, `notes`/`weather` enabled. -/
def initState : BState :=
  { tabs := []
    activeTabId := none
    addressBar := { value := "", isFocused := false, isEditing := false }
    navigation := { canGoBack := false, canGoForward := false }
    ui := { isLoading := false, loadingTabId := none }
    conversations := []
    activeConversationId := none
    enabledWidgets := ["notes", "weather"]
    registeredWidgets := ["notes", "weather", "clock", "quicklinks"]
    storedTabs := none }

/-- `createTab(options)`. -/
def createTab (options : TabOptions) (genId : String) : Tab :=
  { id := jsOrString options.id genId
    title := jsOrString options.title "New tab"
    url := jsOrString options.url ""
    favicon := jsOrNull options.favicon
    isPinned := jsOrBool options.isPinned false
    isLoading := false
    canGoBack := false
    canGoForward := false }

/-- `createMessage(options)`; `genId` stands for `generateId()` and `now`
for `Date.now()`. -/
def createMessage (options : MessageOptions) (genId : String) (now : Nat) : Message :=
  { id := jsOrString options.id genId
    role := jsOrString options.role "user"
    content := jsOrString options.content ""
    timestamp := jsOrNat options.timestamp now }

/-- `createConversation(options)`. -/
def createConversation (options : ConversationOptions) (genId : String) (now : Nat) :
    Conversation :=
  { id := jsOrString options.id genId
    title := jsOrString options.title "New conversation"
    createdAt := jsOrNat options.createdAt now
    lastUpdated := jsOrNat options.lastUpdated now
    messages := options.messages.getD []
    originatingContext := jsOrString options.originatingContext "global" }

/-- `getTab(tabId)`: the first tab with the given id. -/
def getTab? (s : BState) (tabId : String) : Option Tab :=
  s.tabs.find? (fun t => t.id == tabId)

/-- The snapshot written by `saveTabs()`. -/
def tabSnapshot (s : BState) : TabSnapshot :=
  { activeTabId := s.activeTabId
    tabs := s.tabs.map (fun t =>
      { id := t.id, title := t.title, url := t.url, favicon := t.favicon }) }

/-- State component of `saveTabs()`: record the snapshot in the store. -/
def saveTabsState (s : BState) : BState :=
  { s with storedTabs := some (tabSnapshot s) }

/-- `setActiveTab(tabId)`: no-op when the id is unknown; otherwise set the
pointer, resynchronize the address bar and the navigation flags, persist,
emit `activeTabChanged` then `stateChanged`. -/
def setActiveTab (tabId : String) (s : BState) : BState × List Eff :=
  match s.tabs.find? (fun t => t.id == tabId) with
  | none => (s, [])
  | some tab =>
    let s1 := { s with
      activeTabId := some tabId
      addressBar := { s.addressBar with value := tab.url, isEditing := false }
      navigation := { canGoBack := tab.canGoBack, canGoForward := tab.canGoForward } }
    (saveTabsState s1,
      [Eff.saveTabs, Eff.emit (Ev.activeTabChanged tabId), Eff.emit Ev.stateChanged])

/-- `addTab(options)`: push the created tab, activate it (nested
`setActiveTab` call with its own effects), persist, emit `tabAdded` then
`stateChanged`. -/
def addTab (options : TabOptions) (genId : String) (s : BState) : BState × List Eff :=
  let tab := createTab options genId
  let s1 := { s with tabs := s.tabs ++ [tab] }
  let r2 := setActiveTab tab.id s1
  (saveTabsState r2.1,
    r2.2 ++ [Eff.saveTabs, Eff.emit (Ev.tabAdded tab.id), Eff.emit Ev.stateChanged])

/-- `removeTab(tabId)`: no-op when the id is unknown.  Remove the tab; if
it was active, activate `tabs[max(0, index - 1)]` of the post-removal
collection when tabs remain (the `Nat` subtraction `index - 1` is exactly
`max(0, index - 1)`), else null the pointer and clear the address-bar
buffer.  Persist, emit `tabRemoved` then `stateChanged`. -/
def removeTab (tabId : String) (s : BState) : BState × List Eff :=
  match findIndex (fun t => t.id == tabId) s.tabs with
  | none => (s, [])
  | some index =>
    match s.tabs[index]? with
    | none => (s, [])
    | some tab =>
      let tabs1 := s.tabs.eraseIdx index
      let s1 := { s with tabs := tabs1 }
      let r2 :=
        if s1.activeTabId = some tabId then
          if 0 < tabs1.length then
            match tabs1[index - 1]? with
            | some t => setActiveTab t.id s1
            | none => (s1, [])
          else
            ({ s1 with
                activeTabId := none
                addressBar := { s1.addressBar with value := "" } }, [])
        else (s1, [])
      (saveTabsState r2.1,
        r2.2 ++ [Eff.saveTabs, Eff.emit (Ev.tabRemoved tab.id), Eff.emit Ev.stateChanged])

/-- `closeOtherTabs(keepTabId)`: snapshot the tabs to close, remove each
by a fresh `findIndex` on the shrinking array, re-activate the kept tab
(`setActiveTab` is a silent no-op when `keepTabId` is unknown), persist
once, emit `stateChanged`. -/
def closeOtherTabs (keepTabId : String) (s : BState) : BState × List Eff :=
  let tabsToClose := s.tabs.filter (fun t => t.id != keepTabId)
  let tabs1 := tabsToClose.foldl (fun acc t =>
    match findIndex (fun x => x.id == t.id) acc with
    | some i => acc.eraseIdx i
    | none => acc) s.tabs
  let s1 := { s with tabs := tabs1 }
  let r2 := setActiveTab keepTabId s1
  (saveTabsState r2.1, r2.2 ++ [Eff.saveTabs, Eff.emit Ev.stateChanged])

/-- `closeTabsToRight(tabId)`: no-op when the id is unknown; keep the
prefix up to and including the tab, re-activate the reference tab when
the active tab was closed, persist, emit `stateChanged`. -/
def closeTabsToRight (tabId : String) (s : BState) : BState × List Eff :=
  match findIndex (fun t => t.id == tabId) s.tabs with
  | none => (s, [])
  | some index =>
    let s1 := { s with tabs := s.tabs.take (index + 1) }
    let r2 :=
      if (s1.tabs.find? (fun t => some t.id = s1.activeTabId)).isNone then
        setActiveTab tabId s1
      else (s1, [])
    (saveTabsState r2.1, r2.2 ++ [Eff.saveTabs, Eff.emit Ev.stateChanged])

/-- `duplicateTab(tabId)`: no-op when the id is unknown; clone
title/url/favicon into a fresh tab (unpinned, like every created tab),
insert it right after the source, activate it, persist, emit `tabAdded`
then `stateChanged`. -/
def duplicateTab (tabId : String) (genId : String) (s : BState) : BState × List Eff :=
  match findIndex (fun t => t.id == tabId) s.tabs with
  | none => (s, [])
  | some index =>
    match s.tabs[index]? with
    | none => (s, [])
    | some sourceTab =>
      let newTab := createTab
        { title := some sourceTab.title
          url := some sourceTab.url
          favicon := sourceTab.favicon } genId
      let s1 := { s with tabs := insertAt s.tabs (index + 1) newTab }
      let r2 := setActiveTab newTab.id s1
      (saveTabsState r2.1,
        r2.2 ++ [Eff.saveTabs, Eff.emit (Ev.tabAdded newTab.id), Eff.emit Ev.stateChanged])

/-- `togglePinTab(tabId)`: no-op when the id is unknown (`getTab` returns
the first match, the element at `findIndex`).  Flip the pin flag in
place; when the tab becomes pinned, remove it and reinsert it right after
the last currently-pinned tab (`splice(lastPinnedIndex + 1, 0, tab)`).
Persist, emit `stateChanged`. -/
def togglePinTab (tabId : String) (s : BState) : BState × List Eff :=
  match findIndex (fun t => t.id == tabId) s.tabs with
  | none => (s, [])
  | some i =>
    match s.tabs[i]? with
    | none => (s, [])
    | some tab =>
      let flipped := { tab with isPinned := !tab.isPinned }
      let tabs0 := s.tabs.set i flipped
      let tabs1 :=
        if flipped.isPinned then
          match findIndex (fun t => t.id == tabId) tabs0 with
          | none => tabs0
          | some j =>
            let without := tabs0.eraseIdx j
            insertAt without ((lastPinnedIndex without + 1).toNat) flipped
        else tabs0
      (saveTabsState { s with tabs := tabs1 }, [Eff.saveTabs, Eff.emit Ev.stateChanged])

/-- `reorderTab(draggedTabId, targetTabId)`: no-op when either id is
unknown or the drag would cross the pinned/unpinned boundary; otherwise
remove the dragged tab and reinsert it before the target's position after
removal.  When that second `findIndex` misses (dragging a tab onto
itself), JS `splice(-1, 0, x)` inserts before the last element. -/
def reorderTab (draggedTabId targetTabId : String) (s : BState) : BState × List Eff :=
  match findIndex (fun t => t.id == draggedTabId) s.tabs,
        findIndex (fun t => t.id == targetTabId) s.tabs with
  | some draggedIndex, some targetIndex =>
    match s.tabs[draggedIndex]?, s.tabs[targetIndex]? with
    | some draggedTab, some targetTab =>
      if draggedTab.isPinned != targetTab.isPinned then (s, [])
      else
        let tabs1 := s.tabs.eraseIdx draggedIndex
        let tabs2 :=
          match findIndex (fun t => t.id == targetTabId) tabs1 with
          | some newTargetIndex => insertAt tabs1 newTargetIndex draggedTab
          | none => insertAt tabs1 (tabs1.length - 1) draggedTab
        (saveTabsState { s with tabs := tabs2 }, [Eff.saveTabs, Eff.emit Ev.stateChanged])
    | _, _ => (s, [])
  | _, _ => (s, [])

/-- `updateTab(tabId, updates)`: no-op when the id is unknown (`getTab`
returns the first match, the element at `findIndex`).  Merge the fields;
when the tab is active, mirror `canGoBack`/`canGoForward` when present
and mirror `url` into the address bar unless mid-edit; persist exactly
when a `url`, `title` or `favicon` key is present; emit `tabUpdated` then
`stateChanged`. -/
def updateTab (tabId : String) (u : TabUpdates) (s : BState) : BState × List Eff :=
  match findIndex (fun t => t.id == tabId) s.tabs with
  | none => (s, [])
  | some i =>
    match s.tabs[i]? with
    | none => (s, [])
    | some tab =>
      let tab1 := applyUpdates tab u
      let s1 := { s with tabs := s.tabs.set i tab1 }
      let s2 :=
        if s1.activeTabId = some tabId then
          { s1 with
            navigation :=
              { canGoBack := u.canGoBack.getD s1.navigation.canGoBack
                canGoForward := u.canGoForward.getD s1.navigation.canGoForward }
            addressBar :=
              if u.url.isSome && !s1.addressBar.isEditing then
                { s1.addressBar with value := u.url.getD "" }
              else s1.addressBar }
        else s1
      let r3 :=
        if u.url.isSome || u.title.isSome || u.favicon.isSome then
          (saveTabsState s2, [Eff.saveTabs])
        else (s2, ([] : List Eff))
      (r3.1, r3.2 ++ [Eff.emit (Ev.tabUpdated tabId), Eff.emit Ev.stateChanged])

/-- `setTabLoading(tabId, isLoading)`: no-op when the id is unknown; set
the per-tab flag, mirror into the process-wide indicator when the tab is
active, emit `loadingStateChanged` then `stateChanged` (no persistence). -/
def setTabLoading (tabId : String) (isLoading : Bool) (s : BState) : BState × List Eff :=
  match findIndex (fun t => t.id == tabId) s.tabs with
  | none => (s, [])
  | some i =>
    match s.tabs[i]? with
    | none => (s, [])
    | some tab =>
      let s1 := { s with
        tabs := s.tabs.set i { tab with isLoading := isLoading }
        ui :=
          if s.activeTabId = some tabId then
            { isLoading := isLoading, loadingTabId := if isLoading then some tabId else none }
          else s.ui }
      (s1, [Eff.emit (Ev.loadingStateChanged tabId isLoading), Eff.emit Ev.stateChanged])

/-- `normalizeUrl(input)`: trim; empty stays empty; a dotted, space-free
input gets `https://` prefixed unless it already carries an http(s)
protocol; everything else is returned trimmed (search-query placeholder). -/
def normalizeUrl (input : String) : String :=
  let trimmed := jsTrim input
  if trimmed = "" then ""
  else if includesChar trimmed '.' && !includesChar trimmed ' ' then
    if !matchesHttpProtocol trimmed then "https://" ++ trimmed else trimmed
  else trimmed

/-- The auto-derived conversation title of `addMessage`:
`content.slice(0, 50) + (content.length > 50 ? '...' : '')`. -/
def derivedTitle (content : String) : String :=
  jsSlice content 50 ++ (if 50 < content.length then "..." else "")

/-- `addConversation(options)`: push the created conversation, make it
active, persist, emit `conversationAdded` then `activeConversationChanged`. -/
def addConversation (options : ConversationOptions) (genId : String) (now : Nat)
    (s : BState) : BState × List Eff :=
  let conversation := createConversation options genId now
  ({ s with
      conversations := s.conversations ++ [conversation]
      activeConversationId := some conversation.id },
    [Eff.saveConversations, Eff.emit (Ev.conversationAdded conversation.id),
      Eff.emit (Ev.activeConversationChanged conversation.id)])

/-- `addMessage(conversationId, messageOptions)`: no-op when the id is
unknown (`getConversation` returns the first match, the element at
`findIndex`).  Append the created message, bump `lastUpdated`, and when
the title is still the placeholder and the message is a `user` message,
derive the title from its content.  Persist, emit `messageAdded` then
`conversationUpdated`. -/
def addMessage (conversationId : String) (messageOptions : MessageOptions)
    (genId : String) (now : Nat) (s : BState) : BState × List Eff :=
  match findIndex (fun c => c.id == conversationId) s.conversations with
  | none => (s, [])
  | some i =>
    match s.conversations[i]? with
    | none => (s, [])
    | some conversation =>
      let message := createMessage messageOptions genId now
      let c1 := { conversation with
        messages := conversation.messages ++ [message]
        lastUpdated := now }
      let c2 :=
        if c1.title == "New conversation" && message.role == "user" then
          { c1 with title := derivedTitle message.content }
        else c1
      ({ s with conversations := s.conversations.set i c2 },
        [Eff.saveConversations, Eff.emit (Ev.messageAdded conversationId),
          Eff.emit (Ev.conversationUpdated conversationId)])

/-- `enableWidget(widgetId)`: silently rejected when the widget is not
registered; when already enabled, nothing happens; otherwise append to
the enabled-id list, persist, emit `ntpUpdated`. -/
def enableWidget (widgetId : String) (s : BState) : BState × List Eff :=
  if !(s.registeredWidgets.contains widgetId) then (s, [])
  else if !(s.enabledWidgets.contains widgetId) then
    ({ s with enabledWidgets := s.enabledWidgets ++ [widgetId] },
      [Eff.saveNtp, Eff.emit Ev.ntpUpdated])
  else (s, [])

/-- `disableWidget(widgetId)`: remove the first occurrence from the
enabled-id list when present (`indexOf` + `splice(index, 1)`), persist,
emit `ntpUpdated`; otherwise nothing happens. -/
def disableWidget (widgetId : String) (s : BState) : BState × List Eff :=
  match findIndex (fun w => w == widgetId) s.enabledWidgets with
  | none => (s, [])
  | some index =>
    ({ s with enabledWidgets := s.enabledWidgets.eraseIdx index },
      [Eff.saveNtp, Eff.emit Ev.ntpUpdated])

/-- The tab operations quantified over by the reachability claims.  The
`genId` arguments stand for the outputs of `generateId()`. -/
inductive TabOp where
  | add (options : TabOptions) (genId : String)
  | remove (tabId : String)
  | dup (tabId : String) (genId : String)
  | togglePin (tabId : String)
  | reorder (draggedTabId targetTabId : String)
  | closeOther (keepTabId : String)
  | closeRight (tabId : String)
  deriving DecidableEq, Repr

/-- Run one tab operation, discarding the effect trace. -/
def stepTab (op : TabOp) (s : BState) : BState :=
  match op with
  | .add options genId => (addTab options genId s).1
  | .remove tabId => (removeTab tabId s).1
  | .dup tabId genId => (duplicateTab tabId genId s).1
  | .togglePin tabId => (togglePinTab tabId s).1
  | .reorder d t => (reorderTab d t s).1
  | .closeOther keepTabId => (closeOtherTabs keepTabId s).1
  | .closeRight tabId => (closeTabsToRight tabId s).1

/-- Run a sequence of tab operations from a state. -/
def runTabOps (ops : List TabOp) (s : BState) : BState :=
  ops.foldl (fun acc op => stepTab op acc) s

/-- States reachable from the empty state by `addTab`/`removeTab` calls
only (the sequences quantified over by the active-tab invariant). -/
inductive ReachAR : BState → Prop where
  | init : ReachAR initState
  | add (s : BState) (options : TabOptions) (genId : String) :
      ReachAR s → ReachAR (addTab options genId s).1
  | remove (s : BState) (tabId : String) :
      ReachAR s → ReachAR (removeTab tabId s).1

/-- The active-tab invariant: the pointer names a present tab, or the
collection is empty and the pointer is null. -/
def ActiveOk (s : BState) : Prop :=
  (s.tabs = [] ∧ s.activeTabId = none) ∨
    ∃ id, s.activeTabId = some id ∧ ∃ t ∈ s.tabs, t.id = id

/-- The pin-partition property exactly as the claim states it: for all
`i < j`, an unpinned tab at `i` forces an unpinned tab at `j`. -/
def IsPartitioned (l : List Tab) : Prop :=
  ∀ i j : Fin l.length, (i : Nat) < (j : Nat) →
    (l.get i).isPinned = false → (l.get j).isPinned = false

instance (l : List Tab) : Decidable (IsPartitioned l) := by
  unfold IsPartitioned; infer_instance

/-- Side condition under which `togglePinTab` pins (rather than unpins):
the first matching tab, if any, is currently unpinned. -/
def togglePinSafe (s : BState) (tabId : String) : Bool :=
  match s.tabs.find? (fun t => t.id == tabId) with
  | some t => !t.isPinned
  | none => true

/-- States reachable from the empty state by the claim's tab operations,
restricted to the pin-partition-preserving uses: created tabs unpinned,
`togglePinTab` only pinning, no self-drags, and no `duplicateTab`. -/
inductive TameReach : BState → Prop where
  | init : TameReach initState
  | add (s : BState) (options : TabOptions) (genId : String) :
      TameReach s → jsOrBool options.isPinned false = false →
      TameReach (addTab options genId s).1
  | remove (s : BState) (tabId : String) :
      TameReach s → TameReach (removeTab tabId s).1
  | togglePin (s : BState) (tabId : String) :
      TameReach s → togglePinSafe s tabId = true →
      TameReach (togglePinTab tabId s).1
  | reorder (s : BState) (draggedTabId targetTabId : String) :
      TameReach s → draggedTabId ≠ targetTabId →
      TameReach (reorderTab draggedTabId targetTabId s).1
  | closeOther (s : BState) (keepTabId : String) :
      TameReach s → TameReach (closeOtherTabs keepTabId s).1
  | closeRight (s : BState) (tabId : String) :
      TameReach s → TameReach (closeTabsToRight tabId s).1

/-- Widget enablement operations. -/
inductive WidgetOp where
  | enable (widgetId : String)
  | disable (widgetId : String)
  deriving DecidableEq, Repr

/-- Run a sequence of widget operations, discarding effect traces. -/
def runWidgetOps (ops : List WidgetOp) (s : BState) : BState :=
  ops.foldl (fun acc op =>
    match op with
    | .enable w => (enableWidget w acc).1
    | .disable w => (disableWidget w acc).1) s

/-- A concrete one-tab state used by several witnesses. -/
def exTab1 : BState :=
  (addTab { title := some "Example", url := some "https://example.com" } "t1" initState).1

/-- A concrete three-tab state `[a, b, c]` with `b` active. -/
def exTabABC : BState :=
  (setActiveTab "b" (addTab {} "c" (addTab {} "b" (addTab {} "a" initState).1).1).1).1

/-- A concrete one-tab state with `a` active. -/
def exTabA : BState := (addTab {} "a" initState).1

/-- The conversation update performed by `addMessage` on the found
conversation: append the message, bump `lastUpdated`, and derive the
title when it is still the placeholder and the message is a `user`
message. -/
def addMessageConv (c : Conversation) (message : Message) (now : Nat) : Conversation :=
  if c.title == "New conversation" && message.role == "user" then
    { c with
      messages := c.messages ++ [message]
      lastUpdated := now
      title := derivedTitle message.content }
  else
    { c with
      messages := c.messages ++ [message]
      lastUpdated := now }

/-- A fresh conversation state: one conversation `c1`, no messages. -/
def exConvS0 : BState := (addConversation {} "c1" 100 initState).1

/-- After a first user message whose content is exactly the placeholder. -/
def exConvS1 : BState :=
  (addMessage "c1" { role := some "user", content := some "New conversation" }
    "m1" 101 exConvS0).1

/-- After a second user message on the same conversation. -/
def exConvS2 : BState :=
  (addMessage "c1" { role := some "user", content := some "hello" } "m2" 102 exConvS1).1

/-! List lemmas about the JS-array helpers. -/

theorem findIndex_eq_none_iff {α : Type} (p : α → Bool) (l : List α) :
    findIndex p l = none ↔ ∀ x ∈ l, p x = false := by
  induction l with
  | nil => simp [findIndex]
  | cons a as ih =>
    by_cases h : p a = true
    · simp [findIndex, h]
    · simp only [Bool.not_eq_true] at h
      simp [findIndex, h, ih]

theorem findIndex_lt_length {α : Type} {p : α → Bool} {l : List α} {i : Nat}
    (h : findIndex p l = some i) : i < l.length := by
  induction l generalizing i with
  | nil => simp [findIndex] at h
  | cons a as ih =>
    by_cases hpa : p a = true
    · simp [findIndex, hpa] at h
      simp only [List.length_cons]
      omega
    · simp only [Bool.not_eq_true] at hpa
      simp [findIndex, hpa] at h
      obtain ⟨j, hj, rfl⟩ := h
      have := ih hj
      simp only [List.length_cons]
      omega

theorem findIndex_getElem? {α : Type} {p : α → Bool} {l : List α} {i : Nat}
    (h : findIndex p l = some i) : l[i]? = l.find? p := by
  induction l generalizing i with
  | nil => simp [findIndex] at h
  | cons a as ih =>
    by_cases hpa : p a = true
    · simp [findIndex, hpa] at h
      subst h
      simp [List.find?, hpa]
    · simp only [Bool.not_eq_true] at hpa
      simp [findIndex, hpa] at h
      obtain ⟨j, hj, rfl⟩ := h
      simp [List.find?, hpa, ih hj]

theorem findIndex_prev_false {α : Type} {p : α → Bool} {l : List α} {i : Nat}
    (h : findIndex p l = some i) :
    ∀ j, j < i → ∀ y, l[j]? = some y → p y = false := by
  induction l generalizing i with
  | nil => simp [findIndex] at h
  | cons a as ih =>
    by_cases hpa : p a = true
    · simp [findIndex, hpa] at h
      omega
    · simp only [Bool.not_eq_true] at hpa
      simp [findIndex, hpa] at h
      obtain ⟨k, hk, rfl⟩ := h
      intro j hj y hy
      cases j with
      | zero => simp at hy; subst hy; exact hpa
      | succ j' =>
        simp at hy
        exact ih hk j' (by omega) y hy

theorem findIndex_of_getElem? {α : Type} {p : α → Bool} {l : List α} {i : Nat} {x : α}
    (hg : l[i]? = some x) (hx : p x = true)
    (hprev : ∀ j, j < i → ∀ y, l[j]? = some y → p y = false) :
    findIndex p l = some i := by
  induction l generalizing i with
  | nil => simp at hg
  | cons a as ih =>
    cases i with
    | zero =>
      simp at hg
      subst hg
      simp [findIndex, hx]
    | succ i' =>
      have ha : p a = false := hprev 0 (Nat.succ_pos _) a (by simp)
      simp at hg
      have : findIndex p as = some i' :=
        ih hg (fun j hj y hy => hprev (j + 1) (by omega) y (by simpa using hy))
      simp [findIndex, ha, this]

theorem findIndex_set_self {α : Type} {p : α → Bool} {l : List α} {i : Nat} {x : α}
    (h : findIndex p l = some i) (hx : p x = true) :
    findIndex p (l.set i x) = some i := by
  have hi := findIndex_lt_length h
  apply findIndex_of_getElem?
  · rw [List.getElem?_set_self', List.getElem?_eq_getElem hi]
    rfl
  · exact hx
  · intro j hj y hy
    rw [List.getElem?_set_ne (by omega)] at hy
    exact findIndex_prev_false h j hj y hy

theorem find?_eraseIdx_of_not {α : Type} {p : α → Bool} {l : List α} {i : Nat} {x : α}
    (hg : l[i]? = some x) (hx : p x = false) :
    (l.eraseIdx i).find? p = l.find? p := by
  induction l generalizing i with
  | nil => simp at hg
  | cons a as ih =>
    cases i with
    | zero =>
      simp at hg
      subst hg
      simp [List.eraseIdx, List.find?, hx]
    | succ i' =>
      simp at hg
      by_cases hpa : p a = true
      · simp [List.eraseIdx, List.find?, hpa]
      · simp only [Bool.not_eq_true] at hpa
        simp [List.eraseIdx, List.find?, hpa, ih hg]

theorem eraseIdx_set_same {α : Type} (l : List α) (i : Nat) (x : α) :
    (l.set i x).eraseIdx i = l.eraseIdx i := by
  induction l generalizing i with
  | nil => simp
  | cons a as ih =>
    cases i with
    | zero => simp [List.eraseIdx]
    | succ i' => simp [List.eraseIdx, ih]

theorem getElem?_set_self {α : Type} {l : List α} {i : Nat} (x : α) (h : i < l.length) :
    (l.set i x)[i]? = some x := by
  rw [List.getElem?_set_self', List.getElem?_eq_getElem h]
  rfl

theorem set_getElem?_self {α : Type} {l : List α} {i : Nat} {x : α}
    (h : l[i]? = some x) : l.set i x = l := by
  induction l generalizing i with
  | nil => simp at h
  | cons a as ih =>
    cases i with
    | zero => simp at h; subst h; simp
    | succ i' => simp at h; simp [ih h]

theorem mem_eraseIdx_of_ne {α : Type} {l : List α} {t : α} {i : Nat}
    (hm : t ∈ l) (hg : ∀ x, l[i]? = some x → t ≠ x) : t ∈ l.eraseIdx i := by
  induction l generalizing i with
  | nil => simp at hm
  | cons a as ih =>
    cases i with
    | zero =>
      have : t ≠ a := hg a (by simp)
      simp only [List.eraseIdx]
      rcases List.mem_cons.mp hm with h | h
      · exact absurd h this
      · exact h
    | succ i' =>
      simp only [List.eraseIdx]
      rcases List.mem_cons.mp hm with h | h
      · exact List.mem_cons.mpr (Or.inl h)
      · exact List.mem_cons.mpr (Or.inr (ih h (fun x hx => hg x (by simpa using hx))))

theorem eraseIdx_eq_take_drop {α : Type} (l : List α) (i : Nat) :
    l.eraseIdx i = l.take i ++ l.drop (i + 1) := by
  induction l generalizing i with
  | nil => simp
  | cons a as ih =>
    cases i with
    | zero => simp [List.eraseIdx]
    | succ i' => simp [List.eraseIdx, ih]

theorem length_eraseIdx_of_lt {α : Type} {l : List α} {i : Nat} (h : i < l.length) :
    (l.eraseIdx i).length = l.length - 1 := by
  rw [List.length_eraseIdx]
  simp [h]

/-! Pin-partition lemmas. -/

theorem isPartitioned_iff_pairwise (l : List Tab) :
    IsPartitioned l ↔
      l.Pairwise (fun a b => a.isPinned = false → b.isPinned = false) := by
  rw [List.pairwise_iff_get]
  exact Iff.rfl

theorem isPartitioned_parts {l : List Tab} :
    IsPartitioned l ↔
      ∃ p u, l = p ++ u ∧ (∀ t ∈ p, t.isPinned = true) ∧ (∀ t ∈ u, t.isPinned = false) := by
  rw [isPartitioned_iff_pairwise]
  constructor
  · intro h
    induction l with
    | nil => exact ⟨[], [], rfl, by simp, by simp⟩
    | cons a as ih =>
      rw [List.pairwise_cons] at h
      by_cases ha : a.isPinned = true
      · obtain ⟨p, u, heq, hp, hu⟩ := ih h.2
        refine ⟨a :: p, u, by rw [heq, List.cons_append], ?_, hu⟩
        intro t ht
        rcases List.mem_cons.mp ht with h1 | h1
        · exact h1 ▸ ha
        · exact hp t h1
      · have ha' : a.isPinned = false := by simpa using ha
        refine ⟨[], a :: as, rfl, by simp, ?_⟩
        intro t ht
        rcases List.mem_cons.mp ht with h1 | h1
        · exact h1 ▸ ha'
        · exact h.1 t h1 ha'
  · rintro ⟨p, u, rfl, hp, hu⟩
    rw [List.pairwise_append]
    refine ⟨?_, ?_, ?_⟩
    · exact List.pairwise_of_forall_mem_list
        (fun a ha b hb hfa => absurd (hp a ha) (by simp [hfa]))
    · exact List.pairwise_of_forall_mem_list (fun a _ b hb _ => hu b hb)
    · exact fun a ha b hb hfa => absurd (hp a ha) (by simp [hfa])

theorem isPartitioned_sublist {l l' : List Tab}
    (hs : l'.Sublist l) (h : IsPartitioned l) : IsPartitioned l' := by
  rw [isPartitioned_iff_pairwise] at h ⊢
  exact h.sublist hs

theorem isPartitioned_append_unpinned {l : List Tab} {x : Tab}
    (h : IsPartitioned l) (hx : x.isPinned = false) : IsPartitioned (l ++ [x]) := by
  rcases isPartitioned_parts.mp h with ⟨p, u, rfl, hp, hu⟩
  refine isPartitioned_parts.mpr ⟨p, u ++ [x], by rw [List.append_assoc], hp, ?_⟩
  intro t ht
  rcases List.mem_append.mp ht with h1 | h1
  · exact hu t h1
  · simp at h1
    exact h1 ▸ hx

theorem isPartitioned_insertAt_sameFlag {l : List Tab} {nt : Nat} {x y : Tab}
    (h : IsPartitioned l) (hg : l[nt]? = some y) (hflag : y.isPinned = x.isPinned) :
    IsPartitioned (insertAt l nt x) := by
  rcases isPartitioned_parts.mp h with ⟨p, u, rfl, hp, hu⟩
  by_cases hx : x.isPinned = true
  · have hnt : nt < p.length := by
      by_contra hge
      push_neg at hge
      rw [List.getElem?_append_right hge] at hg
      have := hu y (List.getElem?_mem hg)
      rw [hflag, hx] at this
      exact Bool.true_eq_false.mp this
    have h1 : List.take nt (p ++ u) = List.take nt p := by
      rw [List.take_append_eq_append_take, Nat.sub_eq_zero_of_le (Nat.le_of_lt hnt)]
      simp
    have h2 : List.drop nt (p ++ u) = List.drop nt p ++ u := by
      rw [List.drop_append_eq_append_drop, Nat.sub_eq_zero_of_le (Nat.le_of_lt hnt)]
      simp
    refine isPartitioned_parts.mpr
      ⟨List.take nt p ++ x :: List.drop nt p, u, ?_, ?_, hu⟩
    · rw [insertAt, h1, h2]
      simp
    · intro t ht
      rcases List.mem_append.mp ht with h3 | h3
      · exact hp t (List.take_subset _ _ h3)
      · rcases List.mem_cons.mp h3 with h4 | h4
        · exact h4 ▸ hx
        · exact hp t (List.drop_subset _ _ h4)
  · have hx' : x.isPinned = false := by simpa using hx
    have hnt : p.length ≤ nt := by
      by_contra hlt
      push_neg at hlt
      rw [List.getElem?_append, if_pos hlt] at hg
      have := hp y (List.getElem?_mem hg)
      rw [hflag, hx'] at this
      exact Bool.false_eq_true.mp this
    have h1 : List.take nt (p ++ u) = p ++ List.take (nt - p.length) u := by
      rw [List.take_append_eq_append_take, List.take_of_length_le hnt]
    have h2 : List.drop nt (p ++ u) = List.drop (nt - p.length) u := by
      rw [List.drop_append_eq_append_drop, List.drop_eq_nil_of_le hnt]
      simp
    refine isPartitioned_parts.mpr
      ⟨p, List.take (nt - p.length) u ++ x :: List.drop (nt - p.length) u, ?_, hp, ?_⟩
    · rw [insertAt, h1, h2]
      simp
    · intro t ht
      rcases List.mem_append.mp ht with h3 | h3
      · exact hu t (List.take_subset _ _ h3)
      · rcases List.mem_cons.mp h3 with h4 | h4
        · exact h4 ▸ hx'
        · exact hu t (List.drop_subset _ _ h4)

theorem lastPinnedIndexAux_unpinned {u : List Tab}
    (hu : ∀ t ∈ u, t.isPinned = false) (n : Nat) (acc : Int) :
    lastPinnedIndexAux n acc u = acc := by
  induction u generalizing n acc with
  | nil => rfl
  | cons a as ih =>
    have ha : a.isPinned = false := hu a (List.mem_cons_self _ _)
    rw [lastPinnedIndexAux, ha]
    exact ih (fun t ht => hu t (List.mem_cons_of_mem _ ht)) _ _

theorem lastPinnedIndexAux_parts {p u : List Tab}
    (hp : ∀ t ∈ p, t.isPinned = true) (hu : ∀ t ∈ u, t.isPinned = false)
    (n : Nat) (acc : Int) :
    lastPinnedIndexAux n acc (p ++ u) =
      if p = [] then acc else (n : Int) + p.length - 1 := by
  induction p generalizing n acc with
  | nil =>
    simp only [List.nil_append, if_pos rfl]
    exact lastPinnedIndexAux_unpinned hu n acc
  | cons a as ih =>
    have ha : a.isPinned = true := hp a (List.mem_cons_self _ _)
    rw [List.cons_append, lastPinnedIndexAux, ha, if_pos rfl]
    rw [ih (fun t ht => hp t (List.mem_cons_of_mem _ ht)) (n + 1) (n : Int)]
    by_cases has : as = []
    · subst has
      simp
    · rw [if_neg has, if_neg (by simp)]
      simp only [List.length_cons]
      push_cast
      omega

theorem lastPinnedIndex_toNat_parts {p u : List Tab}
    (hp : ∀ t ∈ p, t.isPinned = true) (hu : ∀ t ∈ u, t.isPinned = false) :
    (lastPinnedIndex (p ++ u) + 1).toNat = p.length := by
  rw [lastPinnedIndex, lastPinnedIndexAux_parts hp hu]
  by_cases hps : p = []
  · subst hps
    simp
  · rw [if_neg hps]
    have : 0 < p.length := List.length_pos.mpr hps
    omega

theorem isPartitioned_insert_lastPinned {l : List Tab} {x : Tab}
    (h : IsPartitioned l) (hx : x.isPinned = true) :
    IsPartitioned (insertAt l ((lastPinnedIndex l + 1).toNat) x) := by
  rcases isPartitioned_parts.mp h with ⟨p, u, rfl, hp, hu⟩
  rw [lastPinnedIndex_toNat_parts hp hu]
  have : insertAt (p ++ u) p.length x = p ++ x :: u := by
    rw [insertAt, List.take_left, List.drop_left]
  rw [this]
  refine isPartitioned_parts.mpr ⟨p ++ [x], u, by simp, ?_, hu⟩
  intro t ht
  rcases List.mem_append.mp ht with h1 | h1
  · exact hp t h1
  · simp at h1
    exact h1 ▸ hx

/-! Operation-level helper lemmas. -/

theorem saveTabsState_tabs (s : BState) : (saveTabsState s).tabs = s.tabs := rfl

theorem saveTabsState_activeTabId (s : BState) :
    (saveTabsState s).activeTabId = s.activeTabId := rfl

theorem saveTabsState_addressBar (s : BState) :
    (saveTabsState s).addressBar = s.addressBar := rfl

theorem saveTabsState_conversations (s : BState) :
    (saveTabsState s).conversations = s.conversations := rfl

theorem saveTabsState_enabledWidgets (s : BState) :
    (saveTabsState s).enabledWidgets = s.enabledWidgets := rfl

theorem find?_exists_of_mem {α : Type} {p : α → Bool} {l : List α} {t : α}
    (hm : t ∈ l) (hp : p t = true) :
    ∃ x, l.find? p = some x ∧ p x = true ∧ x ∈ l := by
  cases hf : l.find? p with
  | none =>
    have := List.find?_eq_none.mp hf t hm
    exact absurd hp this
  | some x => exact ⟨x, rfl, List.find?_some hf, List.mem_of_find?_eq_some hf⟩

theorem setActiveTab_not_found {tabId : String} {s : BState}
    (h : s.tabs.find? (fun t => t.id == tabId) = none) :
    setActiveTab tabId s = (s, []) := by
  rw [setActiveTab, h]

theorem setActiveTab_found {tabId : String} {s : BState} {tab : Tab}
    (h : s.tabs.find? (fun t => t.id == tabId) = some tab) :
    setActiveTab tabId s =
      (saveTabsState { s with
          activeTabId := some tabId
          addressBar := { s.addressBar with value := tab.url, isEditing := false }
          navigation := { canGoBack := tab.canGoBack, canGoForward := tab.canGoForward } },
        [Eff.saveTabs, Eff.emit (Ev.activeTabChanged tabId), Eff.emit Ev.stateChanged]) := by
  rw [setActiveTab, h]

theorem setActiveTab_tabs (tabId : String) (s : BState) :
    (setActiveTab tabId s).1.tabs = s.tabs := by
  cases h : s.tabs.find? (fun t => t.id == tabId) with
  | none => rw [setActiveTab_not_found h]
  | some tab =>
    rw [setActiveTab_found h]
    rfl

theorem setActiveTab_active_found {tabId : String} {s : BState} {tab : Tab}
    (h : s.tabs.find? (fun t => t.id == tabId) = some tab) :
    (setActiveTab tabId s).1.activeTabId = some tabId := by
  rw [setActiveTab_found h]
  rfl

theorem activeOk_init : ActiveOk initState := Or.inl ⟨rfl, rfl⟩

theorem activeOk_addTab (s : BState) (options : TabOptions) (genId : String) :
    ActiveOk ((addTab options genId s).1) := by
  have hmem : createTab options genId ∈ s.tabs ++ [createTab options genId] := by simp
  obtain ⟨x, hfind, hpx, hxmem⟩ :=
    find?_exists_of_mem (p := fun t => t.id == (createTab options genId).id) hmem (by simp)
  unfold addTab
  dsimp only
  rw [setActiveTab_found (s := { s with tabs := s.tabs ++ [createTab options genId] }) hfind]
  exact Or.inr ⟨(createTab options genId).id, rfl, x, hxmem, by simpa using hpx⟩

theorem activeOk_removeTab (s : BState) (tabId : String) (h : ActiveOk s) :
    ActiveOk ((removeTab tabId s).1) := by
  cases hfi : findIndex (fun t => t.id == tabId) s.tabs with
  | none =>
    simp only [removeTab, hfi]
    exact h
  | some index =>
    cases hget : s.tabs[index]? with
    | none =>
      simp only [removeTab, hfi, hget]
      exact h
    | some tab =>
      simp only [removeTab, hfi, hget]
      by_cases hact : s.activeTabId = some tabId
      · rw [if_pos hact]
        by_cases hlen : 0 < (s.tabs.eraseIdx index).length
        · rw [if_pos hlen]
          have hb : index - 1 < (s.tabs.eraseIdx index).length := by
            have hi := findIndex_lt_length hfi
            have := length_eraseIdx_of_lt hi
            omega
          obtain ⟨t, hgt⟩ : ∃ t, (s.tabs.eraseIdx index)[index - 1]? = some t := by
            rw [List.getElem?_eq_getElem hb]
            exact ⟨_, rfl⟩
          rw [hgt]
          dsimp only
          have hmem : t ∈ s.tabs.eraseIdx index := List.getElem?_mem hgt
          obtain ⟨x, hfind, hpx, hxmem⟩ :=
            find?_exists_of_mem (p := fun tt => tt.id == t.id) hmem (by simp)
          rw [setActiveTab_found (s := { s with tabs := s.tabs.eraseIdx index }) hfind]
          exact Or.inr ⟨t.id, rfl, x, hxmem, by simpa using hpx⟩
        · rw [if_neg hlen]
          refine Or.inl ⟨?_, rfl⟩
          have : (s.tabs.eraseIdx index).length = 0 := by omega
          exact List.length_eq_zero.mp this
      · rw [if_neg hact]
        rcases h with ⟨htabs, _⟩ | ⟨a, ha, t, htmem, htid⟩
        · rw [htabs] at hfi
          simp [findIndex] at hfi
        · have htabid : tab.id = tabId := by
            have h1 := findIndex_getElem? hfi
            have h2 : s.tabs.find? (fun t => t.id == tabId) = some tab := by
              rw [← h1, hget]
            simpa using List.find?_some h2
          have hne : a ≠ tabId := fun he => hact (he ▸ ha)
          refine Or.inr ⟨a, ha, t, ?_, htid⟩
          apply mem_eraseIdx_of_ne htmem
          intro x hx
          rw [hget] at hx
          cases hx
          intro he
          exact hne (by rw [← htid, he, htabid])

/-- Claim C1 (active-tab invariant): for every sequence of `addTab` and
`removeTab` calls starting from the empty state, after each call either
`activeTabId` is the id of a tab present in the collection, or the
collection is empty and `activeTabId` is null. -/
theorem c1_active_tab_invariant (s : BState) (h : ReachAR s) : ActiveOk s := by
  induction h with
  | init => exact activeOk_init
  | add s options genId _ _ => exact activeOk_addTab s options genId
  | remove s tabId _ ih => exact activeOk_removeTab s tabId ih

/-- Witness for C1 at a concrete three-call sequence. -/
theorem c1_active_tab_invariant_witness :
    ActiveOk ((removeTab "b" (addTab {} "b" (addTab {} "a" initState).1).1).1) :=
  c1_active_tab_invariant _
    (ReachAR.remove _ _ (ReachAR.add _ _ _ (ReachAR.add _ _ _ ReachAR.init)))

/-! Pin-partition preservation through each tab operation. -/

theorem isPartitioned_nil : IsPartitioned [] := fun i => i.elim0

theorem addTab_tabs (options : TabOptions) (genId : String) (s : BState) :
    (addTab options genId s).1.tabs = s.tabs ++ [createTab options genId] := by
  unfold addTab
  dsimp only
  rw [saveTabsState_tabs, setActiveTab_tabs]

theorem partitioned_addTab {options : TabOptions} {genId : String} {s : BState}
    (hunp : jsOrBool options.isPinned false = false) (h : IsPartitioned s.tabs) :
    IsPartitioned ((addTab options genId s).1.tabs) := by
  rw [addTab_tabs]
  exact isPartitioned_append_unpinned h hunp

theorem removeTab_tabs_sublist (tabId : String) (s : BState) :
    ((removeTab tabId s).1.tabs).Sublist s.tabs := by
  cases hfi : findIndex (fun t => t.id == tabId) s.tabs with
  | none =>
    simp only [removeTab, hfi]
    exact List.Sublist.refl _
  | some index =>
    cases hget : s.tabs[index]? with
    | none =>
      simp only [removeTab, hfi, hget]
      exact List.Sublist.refl _
    | some tab =>
      simp only [removeTab, hfi, hget]
      by_cases hact : s.activeTabId = some tabId
      · rw [if_pos hact]
        by_cases hlen : 0 < (s.tabs.eraseIdx index).length
        · rw [if_pos hlen]
          cases hgt : (s.tabs.eraseIdx index)[index - 1]? with
          | none =>
            exact List.eraseIdx_sublist _ _
          | some t =>
            dsimp only
            rw [saveTabsState_tabs, setActiveTab_tabs]
            exact List.eraseIdx_sublist _ _
        · rw [if_neg hlen]
          exact List.eraseIdx_sublist _ _
      · rw [if_neg hact]
        exact List.eraseIdx_sublist _ _

theorem foldl_eraseIdx_sublist (cl : List Tab) :
    ∀ start : List Tab,
      (cl.foldl (fun acc t =>
        match findIndex (fun x => x.id == t.id) acc with
        | some i => acc.eraseIdx i
        | none => acc) start).Sublist start := by
  induction cl with
  | nil => exact fun start => List.Sublist.refl _
  | cons a as ih =>
    intro start
    simp only [List.foldl_cons]
    have hstep : (match findIndex (fun x : Tab => x.id == a.id) start with
        | some i => start.eraseIdx i
        | none => start).Sublist start := by
      cases hf : findIndex (fun x : Tab => x.id == a.id) start with
      | some i => exact List.eraseIdx_sublist _ _
      | none => exact List.Sublist.refl _
    exact (ih _).trans hstep

theorem closeOtherTabs_tabs_sublist (keepTabId : String) (s : BState) :
    ((closeOtherTabs keepTabId s).1.tabs).Sublist s.tabs := by
  unfold closeOtherTabs
  dsimp only
  rw [saveTabsState_tabs, setActiveTab_tabs]
  exact foldl_eraseIdx_sublist _ _

theorem closeTabsToRight_tabs_sublist (tabId : String) (s : BState) :
    ((closeTabsToRight tabId s).1.tabs).Sublist s.tabs := by
  cases hfi : findIndex (fun t => t.id == tabId) s.tabs with
  | none =>
    simp only [closeTabsToRight, hfi]
    exact List.Sublist.refl _
  | some index =>
    simp only [closeTabsToRight, hfi]
    by_cases hc : (({ s with tabs := s.tabs.take (index + 1) } : BState).tabs.find?
        (fun t => some t.id = s.activeTabId)).isNone = true
    · rw [if_pos hc]
      rw [saveTabsState_tabs, setActiveTab_tabs]
      exact List.take_sublist _ _
    · rw [if_neg hc]
      exact List.take_sublist _ _

theorem partitioned_togglePinTab (s : BState) (tabId : String)
    (hsafe : togglePinSafe s tabId = true) (h : IsPartitioned s.tabs) :
    IsPartitioned ((togglePinTab tabId s).1.tabs) := by
  cases hfi : findIndex (fun t => t.id == tabId) s.tabs with
  | none => simpa only [togglePinTab, hfi] using h
  | some i =>
    cases hget : s.tabs[i]? with
    | none => simpa only [togglePinTab, hfi, hget] using h
    | some tab =>
      have hfindeq : s.tabs.find? (fun t => t.id == tabId) = some tab := by
        rw [← findIndex_getElem? hfi, hget]
      have hunp : tab.isPinned = false := by
        unfold togglePinSafe at hsafe
        rw [hfindeq] at hsafe
        simpa using hsafe
      have hpin : ({ tab with isPinned := !tab.isPinned } : Tab).isPinned = true := by
        simp [hunp]
      have hfl : (({ tab with isPinned := !tab.isPinned } : Tab).id == tabId) = true := by
        simpa using List.find?_some hfindeq
      have hfi2 : findIndex (fun t => t.id == tabId)
          (s.tabs.set i { tab with isPinned := !tab.isPinned }) = some i :=
        findIndex_set_self hfi hfl
      simp only [togglePinTab, hfi, hget]
      rw [if_pos hpin, hfi2]
      dsimp only
      rw [eraseIdx_set_same]
      have herase : IsPartitioned (s.tabs.eraseIdx i) :=
        isPartitioned_sublist (List.eraseIdx_sublist _ _) h
      exact isPartitioned_insert_lastPinned herase hpin

theorem partitioned_reorderTab (s : BState) (draggedTabId targetTabId : String)
    (hne : draggedTabId ≠ targetTabId) (h : IsPartitioned s.tabs) :
    IsPartitioned ((reorderTab draggedTabId targetTabId s).1.tabs) := by
  cases hfd : findIndex (fun t => t.id == draggedTabId) s.tabs with
  | none => simpa only [reorderTab, hfd] using h
  | some di =>
    cases hft : findIndex (fun t => t.id == targetTabId) s.tabs with
    | none => simpa only [reorderTab, hfd, hft] using h
    | some ti =>
      cases hgd : s.tabs[di]? with
      | none => simpa only [reorderTab, hfd, hft, hgd] using h
      | some draggedTab =>
        cases hgt : s.tabs[ti]? with
        | none => simpa only [reorderTab, hfd, hft, hgd, hgt] using h
        | some targetTab =>
          simp only [reorderTab, hfd, hft, hgd, hgt]
          by_cases hguard : (draggedTab.isPinned != targetTab.isPinned) = true
          · rw [if_pos hguard]
            exact h
          · rw [if_neg hguard]
            have hflag : draggedTab.isPinned = targetTab.isPinned := by
              simpa using hguard
            have hdragged_find : s.tabs.find? (fun t => t.id == draggedTabId) = some draggedTab := by
              rw [← findIndex_getElem? hfd, hgd]
            have hdid : draggedTab.id = draggedTabId := by
              simpa using List.find?_some hdragged_find
            have hpd_false : (draggedTab.id == targetTabId) = false := by
              rw [hdid]
              simpa using hne
            have htarget_find : s.tabs.find? (fun t => t.id == targetTabId) = some targetTab := by
              rw [← findIndex_getElem? hft, hgt]
            have hfind_erase :
                (s.tabs.eraseIdx di).find? (fun t => t.id == targetTabId) = some targetTab := by
              rw [find?_eraseIdx_of_not hgd hpd_false, htarget_find]
            cases hfe : findIndex (fun t => t.id == targetTabId) (s.tabs.eraseIdx di) with
            | none =>
              rw [findIndex_eq_none_iff] at hfe
              exact absurd (List.find?_some hfind_erase)
                (by simp [hfe targetTab (List.mem_of_find?_eq_some hfind_erase)])
            | some nt =>
              dsimp only
              have hnt_get : (s.tabs.eraseIdx di)[nt]? = some targetTab := by
                rw [findIndex_getElem? hfe, hfind_erase]
              have herase : IsPartitioned (s.tabs.eraseIdx di) :=
                isPartitioned_sublist (List.eraseIdx_sublist _ _) h
              exact isPartitioned_insertAt_sameFlag herase hnt_get hflag.symm

/-- Claim C2 (amended).  The pin partition (for all `i < j`, an unpinned
tab at `i` forces an unpinned tab at `j`) holds in every state reachable
from the empty state by `addTab` with unpinned attributes, `removeTab`,
`reorderTab` of two distinct ids, `closeOtherTabs`, `closeTabsToRight`
and `togglePinTab` applied to a currently-unpinned tab.  It is not an
invariant of the unrestricted operation set: `togglePinTab` that unpins
a non-final pinned tab leaves it in place (see the counterexample), and
`duplicateTab` of a pinned tab and `addTab` with `isPinned` likewise
break it. -/
theorem c2_pin_partition (s : BState) (h : TameReach s) : IsPartitioned s.tabs := by
  induction h with
  | init => exact isPartitioned_nil
  | add s options genId _ hunp ih => exact partitioned_addTab hunp ih
  | remove s tabId _ ih =>
    exact isPartitioned_sublist (removeTab_tabs_sublist tabId s) ih
  | togglePin s tabId _ hsafe ih => exact partitioned_togglePinTab s tabId hsafe ih
  | reorder s d t _ hne ih => exact partitioned_reorderTab s d t hne ih
  | closeOther s keepTabId _ ih =>
    exact isPartitioned_sublist (closeOtherTabs_tabs_sublist keepTabId s) ih
  | closeRight s tabId _ ih =>
    exact isPartitioned_sublist (closeTabsToRight_tabs_sublist tabId s) ih

/-- Counterexample to C2 as stated: add two tabs, pin both, then unpin
the first; the unpinned tab now precedes the pinned one. -/
theorem c2_pin_partition_counterexample :
    ¬ IsPartitioned (runTabOps
      [TabOp.add {} "a", TabOp.add {} "b", TabOp.togglePin "a",
        TabOp.togglePin "b", TabOp.togglePin "a"] initState).tabs := by
  decide

/-- Witness for the amended C2 at a concrete tame sequence. -/
theorem c2_pin_partition_witness :
    IsPartitioned ((togglePinTab "a" (addTab {} "b" (addTab {} "a" initState).1).1).1).tabs :=
  c2_pin_partition _
    (TameReach.togglePin _ _
      (TameReach.add _ _ _ (TameReach.add _ _ _ TameReach.init rfl) rfl)
      (by decide))

/-! Unknown-id behaviour of the tab operations. -/

theorem findIndex_id_none {s : BState} {tabId : String}
    (h : ∀ t ∈ s.tabs, t.id ≠ tabId) :
    findIndex (fun t => t.id == tabId) s.tabs = none :=
  (findIndex_eq_none_iff _ _).mpr (fun x hx => by simpa using h x hx)

theorem find?_id_none {s : BState} {tabId : String}
    (h : ∀ t ∈ s.tabs, t.id ≠ tabId) :
    s.tabs.find? (fun t => t.id == tabId) = none :=
  List.find?_eq_none.mpr (fun x hx => by simpa using h x hx)

/-- Claim C3 (amended).  Every tab operation except `closeOtherTabs` is a
silent no-op when invoked with an id not present in the collection: the
state is unchanged and no persistence write or event occurs.
`closeOtherTabs` with an unknown `keepTabId` instead removes every tab,
persists and emits `stateChanged` (see the counterexample). -/
theorem c3_unknown_id_noop (s : BState) (tabId : String)
    (h : ∀ t ∈ s.tabs, t.id ≠ tabId) :
    removeTab tabId s = (s, []) ∧
    setActiveTab tabId s = (s, []) ∧
    (∀ u : TabUpdates, updateTab tabId u s = (s, [])) ∧
    (∀ b : Bool, setTabLoading tabId b s = (s, [])) ∧
    togglePinTab tabId s = (s, []) ∧
    (∀ genId : String, duplicateTab tabId genId s = (s, [])) ∧
    (∀ otherId : String,
      reorderTab tabId otherId s = (s, []) ∧ reorderTab otherId tabId s = (s, [])) ∧
    closeTabsToRight tabId s = (s, []) := by
  have hfi := findIndex_id_none h
  have hfs := find?_id_none h
  refine ⟨?_, ?_, ?_, ?_, ?_, ?_, ?_, ?_⟩
  · simp only [removeTab, hfi]
  · exact setActiveTab_not_found hfs
  · intro u
    simp only [updateTab, hfi]
  · intro b
    simp only [setTabLoading, hfi]
  · simp only [togglePinTab, hfi]
  · intro genId
    simp only [duplicateTab, hfi]
  · intro otherId
    constructor
    · cases h2 : findIndex (fun t => t.id == otherId) s.tabs with
      | none => simp only [reorderTab, hfi, h2]
      | some ti => simp only [reorderTab, hfi, h2]
    · cases h2 : findIndex (fun t => t.id == otherId) s.tabs with
      | none => simp only [reorderTab, hfi, h2]
      | some di => simp only [reorderTab, hfi, h2]
  · simp only [closeTabsToRight, hfi]

/-- Counterexample to C3 as stated: `closeOtherTabs` with an unknown
keep-id is not a no-op — it empties the tab collection and emits effects,
although no tab has the id `"zzz"`. -/
theorem c3_unknown_id_noop_counterexample :
    (∀ t ∈ exTab1.tabs, t.id ≠ "zzz") ∧
    (closeOtherTabs "zzz" exTab1).1.tabs = [] ∧
    (closeOtherTabs "zzz" exTab1).1 ≠ exTab1 ∧
    (closeOtherTabs "zzz" exTab1).2 ≠ [] := by
  decide

/-- Witness for the amended C3 at the concrete one-tab state. -/
theorem c3_unknown_id_noop_witness :
    removeTab "zzz" exTab1 = (exTab1, []) ∧
    setActiveTab "zzz" exTab1 = (exTab1, []) ∧
    (∀ u : TabUpdates, updateTab "zzz" u exTab1 = (exTab1, [])) ∧
    (∀ b : Bool, setTabLoading "zzz" b exTab1 = (exTab1, [])) ∧
    togglePinTab "zzz" exTab1 = (exTab1, []) ∧
    (∀ genId : String, duplicateTab "zzz" genId exTab1 = (exTab1, [])) ∧
    (∀ otherId : String,
      reorderTab "zzz" otherId exTab1 = (exTab1, []) ∧
        reorderTab otherId "zzz" exTab1 = (exTab1, [])) ∧
    closeTabsToRight "zzz" exTab1 = (exTab1, []) :=
  c3_unknown_id_noop exTab1 "zzz" (by decide)

/-! Removal replacement rule. -/

/-- Claim C4 (removal replacement rule): when `removeTab` hits the active
tab at index `i` and other tabs remain, the tab at index `max(0, i - 1)`
of the post-removal collection becomes active (`i - 1` is `Nat`
subtraction, hence exactly `max(0, i - 1)`); when no tab remains, the
active id becomes null and the address-bar buffer is cleared. -/
theorem c4_removal_replacement (s : BState) (tabId : String) (i : Nat)
    (hfi : findIndex (fun t => t.id == tabId) s.tabs = some i)
    (hact : s.activeTabId = some tabId) :
    (1 < s.tabs.length →
      ∃ t, (s.tabs.eraseIdx i)[i - 1]? = some t ∧
        (removeTab tabId s).1.activeTabId = some t.id) ∧
    (s.tabs.length = 1 →
      (removeTab tabId s).1.activeTabId = none ∧
      (removeTab tabId s).1.addressBar.value = "") := by
  have hi := findIndex_lt_length hfi
  obtain ⟨tab, hget⟩ : ∃ tab, s.tabs[i]? = some tab := by
    rw [List.getElem?_eq_getElem hi]
    exact ⟨_, rfl⟩
  simp only [removeTab, hfi, hget]
  rw [if_pos hact]
  constructor
  · intro hlen2
    have herlen : (s.tabs.eraseIdx i).length = s.tabs.length - 1 :=
      length_eraseIdx_of_lt hi
    have hlen : 0 < (s.tabs.eraseIdx i).length := by omega
    rw [if_pos hlen]
    have hb : i - 1 < (s.tabs.eraseIdx i).length := by omega
    obtain ⟨t, hgt⟩ : ∃ t, (s.tabs.eraseIdx i)[i - 1]? = some t := by
      rw [List.getElem?_eq_getElem hb]
      exact ⟨_, rfl⟩
    refine ⟨t, hgt, ?_⟩
    rw [hgt]
    dsimp only
    have hmem : t ∈ s.tabs.eraseIdx i := List.getElem?_mem hgt
    obtain ⟨x, hfind, _, _⟩ :=
      find?_exists_of_mem (p := fun tt => tt.id == t.id) hmem (by simp)
    rw [saveTabsState_activeTabId]
    exact setActiveTab_active_found (s := { s with tabs := s.tabs.eraseIdx i }) hfind
  · intro hlen1
    have herlen : (s.tabs.eraseIdx i).length = s.tabs.length - 1 :=
      length_eraseIdx_of_lt hi
    have hlen : ¬ 0 < (s.tabs.eraseIdx i).length := by omega
    rw [if_neg hlen]
    exact ⟨rfl, rfl⟩

/-- Witness for C4: removing active `b` from `[a, b, c]` activates `a`;
removing the only tab empties the collection and clears the buffer. -/
theorem c4_removal_replacement_witness :
    (removeTab "b" exTabABC).1.activeTabId = some "a" ∧
    (removeTab "a" exTabA).1.activeTabId = none ∧
    (removeTab "a" exTabA).1.addressBar.value = "" := by
  refine ⟨?_, ?_⟩
  · obtain ⟨t, hgt, hactive⟩ :=
      (c4_removal_replacement exTabABC "b" 1 (by decide) (by decide)).1 (by decide)
    have h2 : ((exTabABC.tabs.eraseIdx 1)[1 - 1]?).map (fun t => t.id) = some "a" := by
      decide
    rw [hgt] at h2
    simp only [Option.map_some'] at h2
    rw [hactive, h2]
  · exact (c4_removal_replacement exTabA "a" 0 (by decide) (by decide)).2 (by decide)

/-! URL normalization. -/

/-- Claim C5 (URL normalization): `normalizeUrl` trims and maps blank
input to the empty string; an input whose trimmed form matches
`^https?://` case-insensitively is returned trimmed and otherwise
unchanged; a trimmed input containing a dot, containing no internal
whitespace and not already carrying an http(s) protocol is returned with
`https://` prefixed. -/
theorem c5_normalize_url (s : String) :
    (jsTrim s = "" → normalizeUrl s = "") ∧
    (matchesHttpProtocol (jsTrim s) = true → normalizeUrl s = jsTrim s) ∧
    (includesChar (jsTrim s) '.' = true →
      (∀ c ∈ (jsTrim s).data, ¬ c.isWhitespace) →
      matchesHttpProtocol (jsTrim s) = false →
      normalizeUrl s = "https://" ++ jsTrim s) := by
  refine ⟨?_, ?_, ?_⟩
  · intro h
    simp only [normalizeUrl]
    rw [if_pos h]
  · intro hm
    by_cases he : jsTrim s = ""
    · rw [he] at hm
      exact absurd hm (by decide)
    · simp only [normalizeUrl]
      rw [if_neg he]
      by_cases hd : (includesChar (jsTrim s) '.' && !includesChar (jsTrim s) ' ') = true
      · rw [if_pos hd, if_neg (by simp [hm])]
      · rw [if_neg hd]
  · intro hdot hws hm
    have he : jsTrim s ≠ "" := by
      intro h0
      rw [h0] at hdot
      exact absurd hdot (by decide)
    have hsp : includesChar (jsTrim s) ' ' = false := by
      by_contra hc
      rw [Bool.not_eq_false] at hc
      unfold includesChar at hc
      have hmem : ' ' ∈ (jsTrim s).data := by
        simpa using hc
      exact absurd (by decide : Char.isWhitespace ' ' = true) (by simpa using hws ' ' hmem)
    simp only [normalizeUrl]
    rw [if_neg he, if_pos (by rw [hdot, hsp]; rfl), if_pos (by simp [hm])]

/-- Witness for C5 at three concrete inputs, one per clause. -/
theorem c5_normalize_url_witness :
    normalizeUrl "   " = "" ∧
    normalizeUrl "HTTP://foo.com" = "HTTP://foo.com" ∧
    normalizeUrl " example.com " = "https://example.com" := by
  refine ⟨?_, ?_, ?_⟩
  · exact (c5_normalize_url "   ").1 (by decide)
  · have h := (c5_normalize_url "HTTP://foo.com").2.1 (by decide)
    rw [h]
    decide
  · have h := (c5_normalize_url " example.com ").2.2 (by decide) (by decide) (by decide)
    rw [h]
    decide

/-! Conversation title auto-derivation. -/

theorem addMessage_found {s : BState} {cid : String} {i : Nat} {c : Conversation}
    {opts : MessageOptions} {genId : String} {now : Nat}
    (hfi : findIndex (fun x => x.id == cid) s.conversations = some i)
    (hget : s.conversations[i]? = some c) :
    addMessage cid opts genId now s =
      ({ s with conversations :=
          s.conversations.set i (addMessageConv c (createMessage opts genId now) now) },
        [Eff.saveConversations, Eff.emit (Ev.messageAdded cid),
          Eff.emit (Ev.conversationUpdated cid)]) := by
  simp only [addMessage, hfi, hget, addMessageConv]

theorem addMessageConv_default {c : Conversation} {message : Message} {now : Nat}
    (htitle : c.title = "New conversation") (hrole : message.role = "user") :
    addMessageConv c message now =
      { c with
        messages := c.messages ++ [message]
        lastUpdated := now
        title := derivedTitle message.content } := by
  rw [addMessageConv, if_pos (by rw [htitle, hrole]; rfl)]

theorem addMessageConv_other {c : Conversation} {message : Message} {now : Nat}
    (htitle : c.title ≠ "New conversation") :
    addMessageConv c message now =
      { c with
        messages := c.messages ++ [message]
        lastUpdated := now } := by
  rw [addMessageConv, if_neg (by
    rw [beq_eq_false_iff_ne.mpr htitle]
    simp)]

/-- Claim C6 (amended).  The first time a `user` message is appended to a
conversation whose title is still the placeholder, the title becomes the
message content truncated to 50 units with an ellipsis appended when
longer; afterwards no further append changes the title — provided the
derived title itself differs from the placeholder string
`"New conversation"` (a first user message whose content is exactly that
placeholder leaves the title re-derivable, see the counterexample). -/
theorem c6_title_derivation (s : BState) (cid : String) (i : Nat) (c : Conversation)
    (hfi : findIndex (fun x => x.id == cid) s.conversations = some i)
    (hget : s.conversations[i]? = some c)
    (htitle : c.title = "New conversation")
    (opts : MessageOptions) (genId : String) (now : Nat)
    (hrole : jsOrString opts.role "user" = "user")
    (hderiv : derivedTitle (jsOrString opts.content "") ≠ "New conversation") :
    (∃ c1, (addMessage cid opts genId now s).1.conversations[i]? = some c1 ∧
      c1.title = derivedTitle (jsOrString opts.content "")) ∧
    (∀ (opts2 : MessageOptions) (g2 : String) (n2 : Nat),
      ∃ c2, (addMessage cid opts2 g2 n2
          (addMessage cid opts genId now s).1).1.conversations[i]? = some c2 ∧
        c2.title = derivedTitle (jsOrString opts.content "")) := by
  have hi : i < s.conversations.length := findIndex_lt_length hfi
  have h1 : s.conversations.find? (fun x => x.id == cid) = some c := by
    rw [← findIndex_getElem? hfi, hget]
  have hcid := List.find?_some h1
  have hconv1 : addMessageConv c (createMessage opts genId now) now =
      { c with
        messages := c.messages ++ [createMessage opts genId now]
        lastUpdated := now
        title := derivedTitle (createMessage opts genId now).content } :=
    addMessageConv_default htitle hrole
  constructor
  · rw [addMessage_found hfi hget, hconv1]
    exact ⟨_, getElem?_set_self _ hi, rfl⟩
  · intro opts2 g2 n2
    rw [addMessage_found hfi hget, hconv1]
    have hfi2 : findIndex (fun x => x.id == cid)
        (s.conversations.set i
          { c with
            messages := c.messages ++ [createMessage opts genId now]
            lastUpdated := now
            title := derivedTitle (createMessage opts genId now).content }) = some i :=
      findIndex_set_self hfi hcid
    have hget2 : (s.conversations.set i
        { c with
          messages := c.messages ++ [createMessage opts genId now]
          lastUpdated := now
          title := derivedTitle (createMessage opts genId now).content })[i]? =
        some { c with
          messages := c.messages ++ [createMessage opts genId now]
          lastUpdated := now
          title := derivedTitle (createMessage opts genId now).content } :=
      getElem?_set_self _ hi
    rw [addMessage_found hfi2 hget2]
    rw [addMessageConv_other (by
      show derivedTitle (createMessage opts genId now).content ≠ "New conversation"
      exact hderiv)]
    refine ⟨_, getElem?_set_self _ (by rw [List.length_set]; exact hi), rfl⟩

/-- Counterexample to C6 as stated: the first user message content is
exactly `"New conversation"`, so the derived title equals the
placeholder and the second user message re-derives the title. -/
theorem c6_title_derivation_counterexample :
    exConvS1.conversations.map (fun c => c.title) = ["New conversation"] ∧
    exConvS2.conversations.map (fun c => c.title) = ["hello"] := by
  decide

/-- Witness for the amended C6 at a concrete conversation. -/
theorem c6_title_derivation_witness :
    (∃ c1, (addMessage "c1" { role := some "user", content := some "Hello" }
        "m1" 101 exConvS0).1.conversations[0]? = some c1 ∧
      c1.title = derivedTitle (jsOrString (some "Hello") "")) ∧
    (∀ (opts2 : MessageOptions) (g2 : String) (n2 : Nat),
      ∃ c2, (addMessage "c1" opts2 g2 n2
          (addMessage "c1" { role := some "user", content := some "Hello" }
            "m1" 101 exConvS0).1).1.conversations[0]? = some c2 ∧
        c2.title = derivedTitle (jsOrString (some "Hello") "")) :=
  c6_title_derivation exConvS0 "c1" 0 (createConversation {} "c1" 100)
    (by decide) (by decide) (by decide)
    { role := some "user", content := some "Hello" } "m1" 101 (by decide) (by decide)

/-! Persistence condition of updateTab. -/

/-- Claim C7 (amended).  `updateTab` writes the tabs snapshot exactly
when the partial-attribute object carries a `url`, `title` or `favicon`
key — key presence, not a value change (the source tests `'url' in
updates` etc.); when none of those keys is present the stored snapshot is
untouched.  As stated (`iff` an actual value change) the claim fails: an
update that re-sends the current title writes the snapshot although no
field changes, see the counterexample. -/
theorem c7_update_persistence (s : BState) (tabId : String) (u : TabUpdates)
    (i : Nat) (hfi : findIndex (fun t => t.id == tabId) s.tabs = some i) :
    (Eff.saveTabs ∈ (updateTab tabId u s).2 ↔
      (u.url.isSome = true ∨ u.title.isSome = true ∨ u.favicon.isSome = true)) ∧
    ((u.url.isSome = false ∧ u.title.isSome = false ∧ u.favicon.isSome = false) →
      (updateTab tabId u s).1.storedTabs = s.storedTabs) := by
  obtain ⟨tab, hget⟩ : ∃ tab, s.tabs[i]? = some tab := by
    rw [List.getElem?_eq_getElem (findIndex_lt_length hfi)]
    exact ⟨_, rfl⟩
  simp only [updateTab, hfi, hget]
  by_cases hc : (u.url.isSome || u.title.isSome || u.favicon.isSome) = true
  · rw [if_pos hc]
    constructor
    · constructor
      · intro _
        simpa [Bool.or_eq_true, or_assoc] using hc
      · intro _
        simp
    · rintro ⟨h1, h2, h3⟩
      rw [h1, h2, h3] at hc
      simp at hc
  · rw [if_neg hc]
    constructor
    · constructor
      · intro hmem
        simp at hmem
      · intro hdisj
        rcases hdisj with h | h | h <;> simp [h] at hc
    · intro _
      by_cases ha : s.activeTabId = some tabId
      · rw [if_pos ha]
      · rw [if_neg ha]

/-- Counterexample to C7 as stated: re-sending the unchanged title writes
the snapshot (a `saveTabs` effect occurs) although no tab field changes
at all. -/
theorem c7_update_persistence_counterexample :
    Eff.saveTabs ∈ (updateTab "t1" { title := some "Example" } exTab1).2 ∧
    (updateTab "t1" { title := some "Example" } exTab1).1.tabs = exTab1.tabs := by
  decide

/-- Witness for the amended C7: an update carrying only `canGoBack`
performs no write and leaves the stored snapshot untouched. -/
theorem c7_update_persistence_witness :
    (Eff.saveTabs ∈ (updateTab "t1" { canGoBack := some true } exTab1).2 ↔
      (({ canGoBack := some true } : TabUpdates).url.isSome = true ∨
        ({ canGoBack := some true } : TabUpdates).title.isSome = true ∨
        ({ canGoBack := some true } : TabUpdates).favicon.isSome = true)) ∧
    ((({ canGoBack := some true } : TabUpdates).url.isSome = false ∧
        ({ canGoBack := some true } : TabUpdates).title.isSome = false ∧
        ({ canGoBack := some true } : TabUpdates).favicon.isSome = false) →
      (updateTab "t1" { canGoBack := some true } exTab1).1.storedTabs = exTab1.storedTabs) :=
  c7_update_persistence exTab1 "t1" { canGoBack := some true } 0 (by decide)

/-! Event ordering. -/

/-- Claim C8 (amended).  Each Tab Store mutation emits its specific event
immediately before the generic `stateChanged` that the operation itself
emits at the end of its trace; for `updateTab` the prefix holds no
`stateChanged` at all, and `setTabLoading`'s whole trace is exactly the
pair.  The claim as stated — specific event before *any* `stateChanged`
of the operation — fails for `addTab` (and for `removeTab` of an active
tab), whose nested `setActiveTab` emits `activeTabChanged` and a first
`stateChanged` before `tabAdded`/`tabRemoved`; see the counterexample. -/
theorem c8_event_ordering :
    (∀ (options : TabOptions) (genId : String) (s : BState),
      ∃ p, (addTab options genId s).2 =
        p ++ [Eff.emit (Ev.tabAdded (createTab options genId).id), Eff.emit Ev.stateChanged]) ∧
    (∀ (tabId : String) (s : BState) (i : Nat),
      findIndex (fun t => t.id == tabId) s.tabs = some i →
      ∃ p rid, (removeTab tabId s).2 =
        p ++ [Eff.emit (Ev.tabRemoved rid), Eff.emit Ev.stateChanged]) ∧
    (∀ (tabId : String) (u : TabUpdates) (s : BState) (i : Nat),
      findIndex (fun t => t.id == tabId) s.tabs = some i →
      ∃ p, (updateTab tabId u s).2 =
          p ++ [Eff.emit (Ev.tabUpdated tabId), Eff.emit Ev.stateChanged] ∧
        ∀ e ∈ p, e ≠ Eff.emit Ev.stateChanged) ∧
    (∀ (tabId : String) (b : Bool) (s : BState) (i : Nat),
      findIndex (fun t => t.id == tabId) s.tabs = some i →
      (setTabLoading tabId b s).2 =
        [Eff.emit (Ev.loadingStateChanged tabId b), Eff.emit Ev.stateChanged]) := by
  refine ⟨?_, ?_, ?_, ?_⟩
  · intro options genId s
    refine ⟨(setActiveTab (createTab options genId).id
        { s with tabs := s.tabs ++ [createTab options genId] }).2 ++ [Eff.saveTabs], ?_⟩
    unfold addTab
    dsimp only
    simp
  · intro tabId s i hfi
    obtain ⟨tab, hget⟩ : ∃ tab, s.tabs[i]? = some tab := by
      rw [List.getElem?_eq_getElem (findIndex_lt_length hfi)]
      exact ⟨_, rfl⟩
    simp only [removeTab, hfi, hget]
    by_cases hact : s.activeTabId = some tabId
    · rw [if_pos hact]
      by_cases hlen : 0 < (s.tabs.eraseIdx i).length
      · rw [if_pos hlen]
        cases hgt : (s.tabs.eraseIdx i)[i - 1]? with
        | none => exact ⟨[Eff.saveTabs], tab.id, rfl⟩
        | some t =>
          dsimp only
          cases hf : List.find? (fun tt => tt.id == t.id) (s.tabs.eraseIdx i) with
          | none =>
            rw [setActiveTab_not_found (s := { s with tabs := s.tabs.eraseIdx i }) hf]
            exact ⟨[Eff.saveTabs], tab.id, rfl⟩
          | some x =>
            rw [setActiveTab_found (s := { s with tabs := s.tabs.eraseIdx i }) hf]
            exact ⟨[Eff.saveTabs, Eff.emit (Ev.activeTabChanged t.id),
              Eff.emit Ev.stateChanged, Eff.saveTabs], tab.id, rfl⟩
      · rw [if_neg hlen]
        exact ⟨[Eff.saveTabs], tab.id, rfl⟩
    · rw [if_neg hact]
      exact ⟨[Eff.saveTabs], tab.id, rfl⟩
  · intro tabId u s i hfi
    obtain ⟨tab, hget⟩ : ∃ tab, s.tabs[i]? = some tab := by
      rw [List.getElem?_eq_getElem (findIndex_lt_length hfi)]
      exact ⟨_, rfl⟩
    simp only [updateTab, hfi, hget]
    by_cases hc : (u.url.isSome || u.title.isSome || u.favicon.isSome) = true
    · rw [if_pos hc]
      refine ⟨[Eff.saveTabs], rfl, ?_⟩
      intro e he
      simp at he
      rw [he]
      simp
    · rw [if_neg hc]
      exact ⟨[], rfl, by simp⟩
  · intro tabId b s i hfi
    obtain ⟨tab, hget⟩ : ∃ tab, s.tabs[i]? = some tab := by
      rw [List.getElem?_eq_getElem (findIndex_lt_length hfi)]
      exact ⟨_, rfl⟩
    simp only [setTabLoading, hfi, hget]

/-- Counterexample to C8 as stated: in the trace of a single `addTab`
from the empty state, a generic `stateChanged` (from the nested
`setActiveTab`) occurs strictly before the specific `tabAdded`. -/
theorem c8_event_ordering_counterexample :
    ∃ i j : Fin (addTab {} "t1" initState).2.length, (i : Nat) < (j : Nat) ∧
      (addTab {} "t1" initState).2.get i = Eff.emit Ev.stateChanged ∧
      (addTab {} "t1" initState).2.get j = Eff.emit (Ev.tabAdded "t1") := by
  decide

/-- Witness for the amended C8: the full `setTabLoading` trace at a
concrete state. -/
theorem c8_event_ordering_witness :
    (setTabLoading "t1" true exTab1).2 =
      [Eff.emit (Ev.loadingStateChanged "t1" true), Eff.emit Ev.stateChanged] :=
  c8_event_ordering.2.2.2 "t1" true exTab1 0 (by decide)

/-! Tab-id immutability. -/

theorem map_id_set_self {l : List Tab} {i : Nat} {tab tab1 : Tab}
    (hget : l[i]? = some tab) (hid : tab1.id = tab.id) :
    (l.set i tab1).map (fun t => t.id) = l.map (fun t => t.id) := by
  rw [List.map_set, hid]
  apply set_getElem?_self
  rw [List.getElem?_map, hget]
  rfl

theorem map_insertAt (f : Tab → String) (l : List Tab) (n : Nat) (x : Tab) :
    (insertAt l n x).map f = insertAt (l.map f) n (f x) := by
  simp [insertAt, List.map_take, List.map_drop]

theorem perm_insertAt_cons {α : Type} (l : List α) (n : Nat) (x : α) :
    (insertAt l n x).Perm (x :: l) := by
  rw [insertAt]
  refine List.perm_middle.trans ?_
  rw [List.take_append_drop]

theorem map_eraseIdx (f : Tab → String) (l : List Tab) (i : Nat) :
    (l.eraseIdx i).map f = (l.map f).eraseIdx i := by
  rw [eraseIdx_eq_take_drop, eraseIdx_eq_take_drop]
  simp [List.map_take, List.map_drop]

theorem cons_eraseIdx_perm {α : Type} {l : List α} {i : Nat} {a : α}
    (h : l[i]? = some a) : (a :: l.eraseIdx i).Perm l := by
  have hi : i < l.length := by
    by_contra hge
    push_neg at hge
    rw [List.getElem?_eq_none hge] at h
    cases h
  have hgl : l[i] = a := by
    rw [List.getElem?_eq_getElem hi] at h
    exact Option.some.inj h
  rw [eraseIdx_eq_take_drop]
  have : l = l.take i ++ a :: l.drop (i + 1) := by
    conv_lhs => rw [← List.take_append_drop i l]
    rw [List.drop_eq_getElem_cons hi, hgl]
  conv_rhs => rw [this]
  exact List.perm_middle.symm

/-- Claim C9 (amended).  No field-mutating tab operation changes any
tab's id: `updateTab` with a partial-attribute object that carries no
`id` key preserves the id sequence exactly, `setTabLoading` preserves it
exactly, and `togglePinTab` permutes tabs without altering any id.  The
unrestricted claim fails: `Object.assign` copies an `id` key when the
caller passes one, so `updateTab(id, {id: ...})` rewrites the tab's id —
see the counterexample. -/
theorem c9_id_immutability :
    (∀ (s : BState) (tabId : String) (u : TabUpdates), u.id = none →
      (updateTab tabId u s).1.tabs.map (fun t => t.id) = s.tabs.map (fun t => t.id)) ∧
    (∀ (s : BState) (tabId : String) (b : Bool),
      (setTabLoading tabId b s).1.tabs.map (fun t => t.id) = s.tabs.map (fun t => t.id)) ∧
    (∀ (s : BState) (tabId : String),
      ((togglePinTab tabId s).1.tabs.map (fun t => t.id)).Perm
        (s.tabs.map (fun t => t.id))) := by
  refine ⟨?_, ?_, ?_⟩
  · intro s tabId u hid
    cases hfi : findIndex (fun t => t.id == tabId) s.tabs with
    | none => simp only [updateTab, hfi]
    | some i =>
      obtain ⟨tab, hget⟩ : ∃ tab, s.tabs[i]? = some tab := by
        rw [List.getElem?_eq_getElem (findIndex_lt_length hfi)]
        exact ⟨_, rfl⟩
      simp only [updateTab, hfi, hget]
      have hkeep : (applyUpdates tab u).id = tab.id := by
        rw [applyUpdates, hid]
        rfl
      by_cases hc : (u.url.isSome || u.title.isSome || u.favicon.isSome) = true
      · rw [if_pos hc]
        by_cases ha : s.activeTabId = some tabId
        · rw [if_pos ha]
          exact map_id_set_self hget hkeep
        · rw [if_neg ha]
          exact map_id_set_self hget hkeep
      · rw [if_neg hc]
        by_cases ha : s.activeTabId = some tabId
        · rw [if_pos ha]
          exact map_id_set_self hget hkeep
        · rw [if_neg ha]
          exact map_id_set_self hget hkeep
  · intro s tabId b
    cases hfi : findIndex (fun t => t.id == tabId) s.tabs with
    | none => simp only [setTabLoading, hfi]
    | some i =>
      obtain ⟨tab, hget⟩ : ∃ tab, s.tabs[i]? = some tab := by
        rw [List.getElem?_eq_getElem (findIndex_lt_length hfi)]
        exact ⟨_, rfl⟩
      simp only [setTabLoading, hfi, hget]
      exact map_id_set_self hget rfl
  · intro s tabId
    cases hfi : findIndex (fun t => t.id == tabId) s.tabs with
    | none =>
      simp only [togglePinTab, hfi]
      exact List.Perm.refl _
    | some i =>
      obtain ⟨tab, hget⟩ : ∃ tab, s.tabs[i]? = some tab := by
        rw [List.getElem?_eq_getElem (findIndex_lt_length hfi)]
        exact ⟨_, rfl⟩
      have hfindeq : s.tabs.find? (fun t => t.id == tabId) = some tab := by
        rw [← findIndex_getElem? hfi, hget]
      have hptab := List.find?_some hfindeq
      have hmapset : (s.tabs.set i { tab with isPinned := !tab.isPinned }).map
          (fun t => t.id) = s.tabs.map (fun t => t.id) :=
        map_id_set_self hget rfl
      simp only [togglePinTab, hfi, hget]
      by_cases hpin : ({ tab with isPinned := !tab.isPinned } : Tab).isPinned = true
      · rw [if_pos hpin]
        have hfi2 : findIndex (fun t => t.id == tabId)
            (s.tabs.set i { tab with isPinned := !tab.isPinned }) = some i :=
          findIndex_set_self hfi hptab
        rw [hfi2]
        dsimp only
        rw [eraseIdx_set_same, saveTabsState_tabs]
        dsimp only
        rw [map_insertAt]
        refine (perm_insertAt_cons _ _ _).trans ?_
        show (tab.id :: (s.tabs.eraseIdx i).map (fun t => t.id)).Perm _
        rw [map_eraseIdx]
        apply cons_eraseIdx_perm
        rw [List.getElem?_map, hget]
        rfl
      · rw [if_neg hpin]
        rw [saveTabsState_tabs]
        dsimp only
        rw [hmapset]

/-- Counterexample to C9 as stated: passing an explicit `id` attribute
through `updateTab` rewrites the tab's id. -/
theorem c9_id_immutability_counterexample :
    (updateTab "t1" { id := some "evil" } exTab1).1.tabs.map (fun t => t.id) = ["evil"] ∧
    exTab1.tabs.map (fun t => t.id) = ["t1"] := by
  decide

/-- Witness for the amended C9: an id-free update preserves the id list. -/
theorem c9_id_immutability_witness :
    (updateTab "t1" { title := some "X" } exTab1).1.tabs.map (fun t => t.id) =
      exTab1.tabs.map (fun t => t.id) :=
  c9_id_immutability.1 exTab1 "t1" { title := some "X" } rfl

/-! Widget enablement. -/

/-- Claim C10 (implicit): `enableWidget` is idempotent and defensive —
called with an already-enabled or unregistered id it leaves the state
unchanged and emits nothing — and consequently any `enableWidget`/
`disableWidget` sequence from a duplicate-free enabled list keeps the
list duplicate-free. -/
theorem c10_widget_enablement :
    (∀ (s : BState) (w : String),
      (s.registeredWidgets.contains w = false ∨ s.enabledWidgets.contains w = true) →
      enableWidget w s = (s, [])) ∧
    (∀ (s : BState) (ops : List WidgetOp), s.enabledWidgets.Nodup →
      (runWidgetOps ops s).enabledWidgets.Nodup) := by
  constructor
  · intro s w h
    rcases h with h | h
    · simp only [enableWidget]
      rw [if_pos (by rw [h]; rfl)]
    · by_cases hr : s.registeredWidgets.contains w = true
      · simp only [enableWidget]
        rw [if_neg (by rw [hr]; simp), if_neg (by rw [h]; simp)]
      · simp only [enableWidget]
        rw [if_pos (by simp only [Bool.not_eq_true] at hr; rw [hr]; rfl)]
  · intro s ops
    induction ops generalizing s with
    | nil => exact fun h => h
    | cons op ops ih =>
      intro h
      rw [runWidgetOps, List.foldl_cons]
      have hstep : ∀ s' : BState, s'.enabledWidgets.Nodup →
          ((match op with
            | WidgetOp.enable w => (enableWidget w s').1
            | WidgetOp.disable w => (disableWidget w s').1).enabledWidgets).Nodup := by
        intro s' h'
        cases op with
        | enable w =>
          by_cases hr : (!s'.registeredWidgets.contains w) = true
          · simp only [enableWidget]
            rw [if_pos hr]
            exact h'
          · by_cases he : (!s'.enabledWidgets.contains w) = true
            · simp only [enableWidget]
              rw [if_neg hr, if_pos he]
              have hnm : w ∉ s'.enabledWidgets := by
                simp only [Bool.not_eq_true'] at he
                simpa using he
              simp [List.nodup_append, h', hnm]
            · simp only [enableWidget]
              rw [if_neg hr, if_neg he]
              exact h'
        | disable w =>
          cases hfi : findIndex (fun x => x == w) s'.enabledWidgets with
          | none =>
            simp only [disableWidget, hfi]
            exact h'
          | some index =>
            simp only [disableWidget, hfi]
            exact (List.eraseIdx_sublist _ _).nodup h'
      exact ih _ (hstep s h)

/-- Witness for C10: enabling an already-enabled widget is the identity
with an empty trace, and a concrete enable/disable sequence keeps the
enabled list duplicate-free. -/
theorem c10_widget_enablement_witness :
    enableWidget "notes" initState = (initState, []) ∧
    (runWidgetOps [WidgetOp.enable "clock", WidgetOp.disable "notes",
      WidgetOp.enable "clock"] initState).enabledWidgets.Nodup :=
  ⟨c10_widget_enablement.1 initState "notes" (Or.inr (by decide)),
    c10_widget_enablement.2 initState _ (by decide)⟩
